import Mathlib

/-!
Verification of the flash-sale purchase core.

Shallow embedding of the backend of the flash-sale service:
the three Redis Lua scripts (`src/backend/src/utils/lua-scripts.ts`),
the service orchestration (`src/backend/src/services/flash-sale.service.ts`),
and the purchase-ledger lookup (`PurchaseService.hasPurchased`).

The Redis state is modelled by `Store`: the string-encoded integer at
`flash-sale:stock` becomes `Option Int` (`none` = key absent; `tonumber`
of an absent key is `nil` in Lua), and the hash at `flash-sale:purchases`
becomes an association list from user id to timestamp string.  Instants
are epoch milliseconds (`Int`), matching JavaScript `Date` comparison;
`Date.prototype.toISOString` is not interpreted: the embedding carries
the rendered ISO string itself wherever the code does.
-/

namespace FlashSale

/-- Redis hash `HGET`: first binding of the key in the association list. -/
def hget (l : List (String × String)) (k : String) : Option String :=
  match l with
  | [] => none
  | (k', v) :: rest => if k' = k then some v else hget rest k

/-- Redis hash `HSET`: overwrite the first binding of the key, or append. -/
def hset (l : List (String × String)) (k v : String) : List (String × String) :=
  match l with
  | [] => [(k, v)]
  | (k', v') :: rest => if k' = k then (k, v) :: rest else (k', v') :: hset rest k v

/-- The two persisted keys: `flash-sale:stock` and `flash-sale:purchases`. -/
structure Store where
  stock : Option Int
  purchases : List (String × String)
  deriving Repr, DecidableEq

/-- Script DECREMENT_STOCK_SCRIPT (lua-scripts.ts): `tonumber(GET stock)`;
nil gives 0,-1; positive gives `DECR` and 1,remaining; else 0,0. -/
def decrementStockScript (st : Store) : (Nat × Int) × Store :=
  match st.stock with
  | none => ((0, -1), st)
  | some stock =>
    if stock > 0 then
      ((1, stock - 1), { st with stock := some (stock - 1) })
    else
      ((0, 0), st)

/-- Script ATOMIC_PURCHASE_SCRIPT (lua-scripts.ts): `HGET` the ledger; a
hit returns 0,existingPurchase; then `tonumber(GET stock)`; nil or `<= 0`
returns 2,0; otherwise `DECR` the stock, `HSET` the ledger with the
timestamp argument, and return 1,remaining.  The second slot of the
returned pair is a Lua number or string, embedded as `Int ⊕ String`. -/
def atomicPurchaseScript (st : Store) (userId nowIso : String) :
    (Nat × (Int ⊕ String)) × Store :=
  match hget st.purchases userId with
  | some existingPurchase => ((0, Sum.inr existingPurchase), st)
  | none =>
    match st.stock with
    | none => ((2, Sum.inl 0), st)
    | some stock =>
      if stock ≤ 0 then
        ((2, Sum.inl 0), st)
      else
        let remaining := stock - 1
        ((1, Sum.inl remaining),
          { stock := some remaining, purchases := hset st.purchases userId nowIso })

/-- Script INIT_STOCK_SCRIPT (lua-scripts.ts): if `EXISTS stock` is 0,
`SET` it to the initial value and return 1; otherwise return 0. -/
def initStockScript (st : Store) (totalStock : Int) : Nat × Store :=
  match st.stock with
  | some _ => (0, st)
  | none => (1, { st with stock := some totalStock })

/-- Sale status union from types/index.ts. -/
inductive SaleStatus where
  | upcoming
  | active
  | ended
  deriving Repr, DecidableEq

/-- The sale window from `config.sale`, instants as epoch milliseconds. -/
structure SaleConfig where
  startTime : Int
  endTime : Int
  deriving Repr, DecidableEq

/-- Method FlashSaleService.getSaleStatus: `now < startTime` is upcoming,
`now >= startTime && now <= endTime` is active, otherwise ended. -/
def getSaleStatus (cfg : SaleConfig) (now : Int) : SaleStatus :=
  if now < cfg.startTime then
    .upcoming
  else if cfg.startTime ≤ now ∧ now ≤ cfg.endTime then
    .active
  else
    .ended

/-- Whitespace recognised by JavaScript `String.prototype.trim` (the
characters that occur in practice; the embedding fixes this set). -/
def isJsWhitespace (c : Char) : Bool :=
  c = ' ' || c = '\t' || c = '\n' || c = '\r' || c = '\x0b' || c = '\x0c'

/-- JavaScript `String.prototype.trim`: drop leading and trailing
whitespace characters. -/
def jsTrim (s : String) : String :=
  ⟨((s.data.dropWhile isJsWhitespace).reverse.dropWhile isJsWhitespace).reverse⟩

/-- JavaScript `String.prototype.toLowerCase`, character by character. -/
def jsToLowerCase (s : String) : String :=
  ⟨s.data.map Char.toLower⟩

/-- User-id normalization: `userId.trim().toLowerCase()`
(flash-sale.service.ts line 75). -/
def normalizeUserId (s : String) : String :=
  jsToLowerCase (jsTrim s)

/-- Failure reasons from types/index.ts (`PurchaseFailureReason`). -/
inductive PurchaseFailureReason where
  | already_purchased
  | out_of_stock
  | sale_not_active
  | invalid_user_id
  deriving Repr, DecidableEq

/-- Purchase response union from types/index.ts: a success carries
`message` and `purchasedAt`; a failure carries `reason` and `message`
and has no `purchasedAt` field. -/
inductive PurchaseResponse where
  | success (message purchasedAt : String)
  | failure (reason : PurchaseFailureReason) (message : String)
  deriving Repr, DecidableEq

/-- Field `purchasedAt` of a purchase response; failures have none. -/
def responsePurchasedAt : PurchaseResponse → Option String
  | .success _ purchasedAt => some purchasedAt
  | .failure _ _ => none

def invalidUserIdMsg : String := "Please provide a valid user identifier."

def saleUpcomingMsg : String :=
  "The sale has not started yet. Please wait for the sale to begin."

def saleEndedMsg : String := "The sale has ended. Thank you for your interest."

def alreadyPurchasedMsg : String :=
  "You have already purchased this item. Each user can only buy one item."

def purchaseSuccessMsg : String := "Congratulations! Your purchase was successful."

def outOfStockMsg : String := "Sorry, the item is sold out. Better luck next time!"

/-- Method FlashSaleService.attemptPurchase.  The guard
`!userId || typeof userId !== 'string' || userId.trim().length === 0`
collapses, for an actual string argument, to the trim being empty
(the empty string itself trims to the empty string).  `gateNow` is the
`new Date()` taken inside `getSaleStatus` for the window check, and
`nowIso` is the ISO rendering of the `new Date()` captured once before
the script call; that one string is both the script argument and the
`purchasedAt` of a success response.  The `none` response embeds the
thrown `Unexpected purchase status code` error of the default case. -/
def attemptPurchase (cfg : SaleConfig) (gateNow : Int) (nowIso : String)
    (userId : String) (st : Store) : Option PurchaseResponse × Store :=
  if jsTrim userId = "" then
    (some (.failure .invalid_user_id invalidUserIdMsg), st)
  else
    let normalizedUserId := jsToLowerCase (jsTrim userId)
    let status := getSaleStatus cfg gateNow
    if status ≠ .active then
      let message := if status = .upcoming then saleUpcomingMsg else saleEndedMsg
      (some (.failure .sale_not_active message), st)
    else
      let r := atomicPurchaseScript st normalizedUserId nowIso
      match r.1 with
      | (0, _) => (some (.failure .already_purchased alreadyPurchasedMsg), r.2)
      | (1, _) => (some (.success purchaseSuccessMsg nowIso), r.2)
      | (2, _) => (some (.failure .out_of_stock outOfStockMsg), r.2)
      | _ => (none, r.2)

/-- Result shape of PurchaseService.hasPurchased (types/index.ts
`PurchaseCheckResult`), the `Date` carried as its source string. -/
structure PurchaseCheckResult where
  hasPurchased : Bool
  purchasedAt : Option String
  deriving Repr, DecidableEq

/-- Method PurchaseService.hasPurchased: `HGET` the ledger; JavaScript
truthiness of the result guards the positive branch, so an empty stored
string also falls through to `hasPurchased: false`.  The stored string is
parsed with `new Date` and later re-rendered; the embedding keeps the
string itself. -/
def hasPurchased (ledger : List (String × String)) (userId : String) :
    PurchaseCheckResult :=
  match hget ledger userId with
  | some purchaseTime =>
    if purchaseTime = "" then ⟨false, none⟩ else ⟨true, some purchaseTime⟩
  | none => ⟨false, none⟩

/-- Response shape of types/index.ts `UserPurchaseStatusResponse`. -/
structure UserPurchaseStatusResponse where
  hasPurchased : Bool
  purchasedAt : Option String
  deriving Repr, DecidableEq

/-- Method FlashSaleService.getUserPurchaseStatus: a falsy (empty) user id
answers `hasPurchased: false` without touching the ledger; otherwise the
id is normalized and the ledger consulted. -/
def getUserPurchaseStatus (userId : String)
    (ledger : List (String × String)) : UserPurchaseStatusResponse :=
  if userId = "" then
    ⟨false, none⟩
  else
    let normalizedUserId := jsToLowerCase (jsTrim userId)
    let result := hasPurchased ledger normalizedUserId
    ⟨result.hasPurchased, result.purchasedAt⟩

/-- Result shape of InventoryService.decrementStock (types/index.ts
`InventoryResult`). -/
structure InventoryResult where
  success : Bool
  remainingStock : Int
  deriving Repr, DecidableEq

/-- Method InventoryService.decrementStock: run the DEC script and map
`result[0] === 1` to the success flag. -/
def decrementStock (st : Store) : InventoryResult × Store :=
  let r := decrementStockScript st
  (⟨r.1.1 = 1, r.1.2⟩, r.2)

/-- One request to attemptPurchase: the clock reading used by the window
check, the ISO string captured for the script, and the raw user id. -/
structure Call where
  gateNow : Int
  nowIso : String
  userId : String
  deriving Repr, DecidableEq

/-- Sequential execution of a list of attemptPurchase calls, pairing each
call with its response and threading the store. -/
def runCalls (cfg : SaleConfig) (st : Store) :
    List Call → List (Call × Option PurchaseResponse) × Store
  | [] => ([], st)
  | c :: cs =>
    let r := attemptPurchase cfg c.gateNow c.nowIso c.userId st
    let rest := runCalls cfg r.2 cs
    ((c, r.1) :: rest.1, rest.2)

/-- Whether a response is a success. -/
def isSuccess : Option PurchaseResponse → Bool
  | some (.success _ _) => true
  | _ => false

/-- Number of successful responses among the calls whose user id
normalizes to `u`. -/
def successCount (u : String) (outs : List (Call × Option PurchaseResponse)) : Nat :=
  (outs.filter (fun p => normalizeUserId p.1.userId == u && isSuccess p.2)).length

/-- Reachability by executions of the atomic purchase script from the
initialized state: counter `totalStock`, ledger empty. -/
inductive ReachableP (totalStock : Nat) : Store → Prop where
  | init : ReachableP totalStock ⟨some (totalStock : Int), []⟩
  | step (st : Store) (u ts : String) :
      ReachableP totalStock st →
      ReachableP totalStock (atomicPurchaseScript st u ts).2

/-! ### Association-list lemmas -/

theorem hget_hset_self (l : List (String × String)) (k v : String) :
    hget (hset l k v) k = some v := by
  induction l with
  | nil => simp [hget, hset]
  | cons p rest ih =>
    by_cases h : p.1 = k
    · simp [hget, hset, h]
    · simpa [hget, hset, h] using ih

theorem hget_hset_ne (l : List (String × String)) (k v u : String)
    (h : u ≠ k) : hget (hset l k v) u = hget l u := by
  have hku : ¬k = u := fun he => h he.symm
  induction l with
  | nil => simp [hget, hset, hku]
  | cons p rest ih =>
    by_cases hp : p.1 = k
    · have hpu : ¬p.1 = u := by rw [hp]; exact hku
      simp [hget, hset, hp, hku, hpu]
    · by_cases hu : p.1 = u
      · simp [hget, hset, hp, hu, h]
      · simpa [hget, hset, hp, hu] using ih

theorem hset_of_absent (l : List (String × String)) (k v : String)
    (h : hget l k = none) : hset l k v = l ++ [(k, v)] := by
  induction l with
  | nil => simp [hset]
  | cons p rest ih =>
    by_cases hp : p.1 = k
    · simp [hget, hp] at h
    · simp only [hget, hp, if_neg, ite_false] at h
      simp [hset, hp, ih h]

theorem length_hset_absent (l : List (String × String)) (k v : String)
    (h : hget l k = none) : (hset l k v).length = l.length + 1 := by
  rw [hset_of_absent l k v h]; simp

/-! ### Case analyses of the atomic purchase script -/

theorem script_already (st : Store) (u ts e : String)
    (h : hget st.purchases u = some e) :
    atomicPurchaseScript st u ts = ((0, Sum.inr e), st) := by
  simp [atomicPurchaseScript, h]

theorem script_out_of_stock (st : Store) (u ts : String)
    (h : hget st.purchases u = none)
    (hs : st.stock = none ∨ ∃ n, st.stock = some n ∧ n ≤ 0) :
    atomicPurchaseScript st u ts = ((2, Sum.inl 0), st) := by
  rcases hs with hs | ⟨n, hn, hle⟩
  · simp [atomicPurchaseScript, h, hs]
  · simp [atomicPurchaseScript, h, hn, hle]

theorem script_success (st : Store) (u ts : String) (n : Int)
    (h : hget st.purchases u = none) (hn : st.stock = some n) (hpos : 0 < n) :
    atomicPurchaseScript st u ts =
      ((1, Sum.inl (n - 1)),
        ⟨some (n - 1), hset st.purchases u ts⟩) := by
  simp [atomicPurchaseScript, h, hn, not_le.mpr hpos]

/-- Every execution of the atomic purchase script either leaves the store
unchanged or, when the user is new and stock is positive, decrements the
counter by one and appends the user's entry. -/
theorem script_step_cases (st : Store) (u ts : String) :
    (atomicPurchaseScript st u ts).2 = st ∨
      ∃ n : Int, st.stock = some n ∧ 0 < n ∧ hget st.purchases u = none ∧
        (atomicPurchaseScript st u ts).2 =
          ⟨some (n - 1), st.purchases ++ [(u, ts)]⟩ := by
  cases hh : hget st.purchases u with
  | some e => exact Or.inl (by rw [script_already st u ts e hh])
  | none =>
    cases hs : st.stock with
    | none => exact Or.inl (by rw [script_out_of_stock st u ts hh (Or.inl hs)])
    | some n =>
      by_cases hle : n ≤ 0
      · exact Or.inl
          (by rw [script_out_of_stock st u ts hh (Or.inr ⟨n, hs, hle⟩)])
      · refine Or.inr ⟨n, rfl, lt_of_not_le hle, rfl, ?_⟩
        rw [script_success st u ts n hh hs (lt_of_not_le hle)]
        simp [hset_of_absent st.purchases u ts hh]

/-! ### Branch equations for attemptPurchase -/

theorem attempt_invalid (cfg : SaleConfig) (g : Int) (n raw : String)
    (st : Store) (h : jsTrim raw = "") :
    attemptPurchase cfg g n raw st =
      (some (.failure .invalid_user_id invalidUserIdMsg), st) := by
  simp [attemptPurchase, h]

theorem attempt_not_active (cfg : SaleConfig) (g : Int) (n raw : String)
    (st : Store) (h : jsTrim raw ≠ "") (ha : getSaleStatus cfg g ≠ .active) :
    attemptPurchase cfg g n raw st =
      (some (.failure .sale_not_active
        (if getSaleStatus cfg g = .upcoming then saleUpcomingMsg else saleEndedMsg)),
       st) := by
  simp [attemptPurchase, h, ha]

theorem attempt_already (cfg : SaleConfig) (g : Int) (n raw : String)
    (st : Store) (e : String) (h : jsTrim raw ≠ "")
    (ha : getSaleStatus cfg g = .active)
    (hh : hget st.purchases (normalizeUserId raw) = some e) :
    attemptPurchase cfg g n raw st =
      (some (.failure .already_purchased alreadyPurchasedMsg), st) := by
  rw [normalizeUserId] at hh
  simp [attemptPurchase, h, ha, script_already st _ n e hh]

theorem attempt_out_of_stock (cfg : SaleConfig) (g : Int) (n raw : String)
    (st : Store) (h : jsTrim raw ≠ "") (ha : getSaleStatus cfg g = .active)
    (hh : hget st.purchases (normalizeUserId raw) = none)
    (hs : st.stock = none ∨ ∃ k, st.stock = some k ∧ k ≤ 0) :
    attemptPurchase cfg g n raw st =
      (some (.failure .out_of_stock outOfStockMsg), st) := by
  rw [normalizeUserId] at hh
  simp [attemptPurchase, h, ha, script_out_of_stock st _ n hh hs]

theorem attempt_success_eq (cfg : SaleConfig) (g : Int) (n raw : String)
    (st : Store) (k : Int) (h : jsTrim raw ≠ "")
    (ha : getSaleStatus cfg g = .active)
    (hh : hget st.purchases (normalizeUserId raw) = none)
    (hs : st.stock = some k) (hpos : 0 < k) :
    attemptPurchase cfg g n raw st =
      (some (.success purchaseSuccessMsg n),
       ⟨some (k - 1), hset st.purchases (normalizeUserId raw) n⟩) := by
  rw [normalizeUserId] at hh
  simp [attemptPurchase, h, ha, script_success st _ n k hh hs hpos, normalizeUserId]

theorem jsToLowerCase_eq_empty (s : String) :
    jsToLowerCase s = "" ↔ s = "" := by
  constructor
  · intro h
    have h2 : s.data.map Char.toLower = [] := congrArg String.data h
    exact String.ext (List.map_eq_nil_iff.mp h2)
  · intro h
    rw [h]; rfl

theorem normalizeUserId_eq_empty (s : String) :
    normalizeUserId s = "" ↔ jsTrim s = "" :=
  jsToLowerCase_eq_empty (jsTrim s)

/-- Inversion: a success response forces the validation and window gates
passed, the user new to the ledger, positive stock, `purchasedAt` the
captured ISO string, and the committed post-state. -/
theorem attempt_success_inv (cfg : SaleConfig) (g : Int) (n raw : String)
    (st : Store) (m ts : String)
    (h : (attemptPurchase cfg g n raw st).1 = some (.success m ts)) :
    jsTrim raw ≠ "" ∧ getSaleStatus cfg g = .active ∧
      hget st.purchases (normalizeUserId raw) = none ∧
      m = purchaseSuccessMsg ∧ ts = n ∧
      ∃ k : Int, st.stock = some k ∧ 0 < k ∧
        (attemptPurchase cfg g n raw st).2 =
          ⟨some (k - 1), hset st.purchases (normalizeUserId raw) n⟩ := by
  by_cases ht : jsTrim raw = ""
  · rw [attempt_invalid _ _ _ _ _ ht] at h; simp at h
  · by_cases ha : getSaleStatus cfg g = .active
    · cases hh : hget st.purchases (normalizeUserId raw) with
      | some e => rw [attempt_already _ _ _ _ _ e ht ha hh] at h; simp at h
      | none =>
        cases hs : st.stock with
        | none =>
          rw [attempt_out_of_stock _ _ _ _ _ ht ha hh (Or.inl hs)] at h
          simp at h
        | some k =>
          by_cases hk : k ≤ 0
          · rw [attempt_out_of_stock _ _ _ _ _ ht ha hh (Or.inr ⟨k, hs, hk⟩)] at h
            simp at h
          · have hpos := lt_of_not_le hk
            rw [attempt_success_eq _ _ _ _ _ k ht ha hh hs hpos] at h
            simp only [Option.some.injEq, PurchaseResponse.success.injEq] at h
            refine ⟨ht, ha, rfl, h.1.symm, h.2.symm, k, rfl, hpos, ?_⟩
            rw [attempt_success_eq _ _ _ _ _ k ht ha hh hs hpos]
    · rw [attempt_not_active _ _ _ _ _ ht ha] at h; simp at h

/-- A ledger entry survives any attemptPurchase call: the script never
overwrites an existing key. -/
theorem attempt_preserves_entry (cfg : SaleConfig) (g : Int) (n raw : String)
    (st : Store) (u e : String) (he : hget st.purchases u = some e) :
    hget (attemptPurchase cfg g n raw st).2.purchases u = some e := by
  by_cases ht : jsTrim raw = ""
  · rw [attempt_invalid _ _ _ _ _ ht]; exact he
  · by_cases ha : getSaleStatus cfg g = .active
    · cases hh : hget st.purchases (normalizeUserId raw) with
      | some x => rw [attempt_already _ _ _ _ _ x ht ha hh]; exact he
      | none =>
        cases hs : st.stock with
        | none =>
          rw [attempt_out_of_stock _ _ _ _ _ ht ha hh (Or.inl hs)]; exact he
        | some k =>
          by_cases hk : k ≤ 0
          · rw [attempt_out_of_stock _ _ _ _ _ ht ha hh (Or.inr ⟨k, hs, hk⟩)]
            exact he
          · rw [attempt_success_eq _ _ _ _ _ k ht ha hh hs (lt_of_not_le hk)]
            have hne : u ≠ normalizeUserId raw := by
              intro h'
              rw [h'] at he
              rw [he] at hh
              cases hh
            rw [hget_hset_ne _ _ _ _ hne]
            exact he
    · rw [attempt_not_active _ _ _ _ _ ht ha]; exact he

theorem runCalls_cons (cfg : SaleConfig) (st : Store) (c : Call) (cs : List Call) :
    runCalls cfg st (c :: cs) =
      ((c, (attemptPurchase cfg c.gateNow c.nowIso c.userId st).1) ::
          (runCalls cfg (attemptPurchase cfg c.gateNow c.nowIso c.userId st).2 cs).1,
       (runCalls cfg (attemptPurchase cfg c.gateNow c.nowIso c.userId st).2 cs).2) :=
  rfl

theorem successCount_nil (u : String) : successCount u [] = 0 := rfl

theorem successCount_cons (u : String) (p : Call × Option PurchaseResponse)
    (rest : List (Call × Option PurchaseResponse)) :
    successCount u (p :: rest) =
      (if normalizeUserId p.1.userId == u && isSuccess p.2 then 1 else 0) +
        successCount u rest := by
  simp only [successCount, List.filter_cons]
  by_cases h : (normalizeUserId p.1.userId == u && isSuccess p.2) = true
  · simp [h, Nat.add_comm]
  · simp [h]

theorem isSuccess_iff (r : Option PurchaseResponse) :
    isSuccess r = true ↔ ∃ m ts, r = some (.success m ts) := by
  cases r with
  | none => simp [isSuccess]
  | some resp =>
    cases resp with
    | success m ts => simp [isSuccess]
    | failure a b => simp [isSuccess]

/-- Once the ledger holds the user, no later call in a run ever succeeds
for that user. -/
theorem successCount_zero_of_present (cfg : SaleConfig) (st : Store)
    (calls : List Call) (u e : String) (h : hget st.purchases u = some e) :
    successCount u (runCalls cfg st calls).1 = 0 := by
  induction calls generalizing st e with
  | nil => rfl
  | cons c cs ih =>
    have hpers := attempt_preserves_entry cfg c.gateNow c.nowIso c.userId st u e h
    rw [runCalls_cons, successCount_cons]
    have hhead : (normalizeUserId c.userId == u &&
        isSuccess (attemptPurchase cfg c.gateNow c.nowIso c.userId st).1) = false := by
      by_cases hn : normalizeUserId c.userId = u
      · cases hr : (attemptPurchase cfg c.gateNow c.nowIso c.userId st).1 with
        | none => simp [isSuccess]
        | some resp =>
          cases resp with
          | failure a b => simp [isSuccess]
          | success m ts =>
            exfalso
            obtain ⟨-, -, hnone, -⟩ :=
              attempt_success_inv cfg c.gateNow c.nowIso c.userId st m ts hr
            rw [hn, h] at hnone
            cases hnone
      · simp [hn]
    rw [hhead]
    simpa using ih _ _ hpers

/-- At most one call in any run succeeds for each normalized user id. -/
theorem successCount_le_one (cfg : SaleConfig) (st : Store)
    (calls : List Call) (u : String) :
    successCount u (runCalls cfg st calls).1 ≤ 1 := by
  induction calls generalizing st with
  | nil => simp [successCount_nil, runCalls]
  | cons c cs ih =>
    rw [runCalls_cons, successCount_cons]
    by_cases hhead : (normalizeUserId c.userId == u &&
        isSuccess (attemptPurchase cfg c.gateNow c.nowIso c.userId st).1) = true
    · obtain ⟨hn, hsucc⟩ := (Bool.and_eq_true _ _).mp hhead
      have hn' : normalizeUserId c.userId = u := eq_of_beq hn
      obtain ⟨m, ts, hr⟩ := (isSuccess_iff _).mp hsucc
      obtain ⟨-, -, -, -, -, k, -, -, heq⟩ :=
        attempt_success_inv cfg c.gateNow c.nowIso c.userId st m ts hr
      have hpost : hget (attemptPurchase cfg c.gateNow c.nowIso c.userId st).2.purchases
          u = some c.nowIso := by
        rw [heq, ← hn']
        exact hget_hset_self _ _ _
      have h0 := successCount_zero_of_present cfg _ cs u c.nowIso hpost
      rw [hhead, h0]
      simp
    · rw [Bool.not_eq_true] at hhead
      rw [hhead]
      simpa using ih _

/-! ### Claim theorems -/

/-- C2: the atomic purchase script, as a function of stock counter,
ledger, user id and timestamp: a ledger hit returns `(0, existing
timestamp)` and changes nothing; an absent or non-positive counter
returns `(2, 0)` and changes nothing; otherwise it decrements the
counter, inserts the user with the timestamp, and returns
`(1, decremented value)`. -/
theorem atomic_purchase_script_spec (st : Store) (u ts : String) :
    (∀ e, hget st.purchases u = some e →
        atomicPurchaseScript st u ts = ((0, Sum.inr e), st)) ∧
    (hget st.purchases u = none →
      (st.stock = none ∨ ∃ n : Int, st.stock = some n ∧ n ≤ 0) →
        atomicPurchaseScript st u ts = ((2, Sum.inl 0), st)) ∧
    (hget st.purchases u = none → ∀ n : Int, st.stock = some n → 0 < n →
        atomicPurchaseScript st u ts =
          ((1, Sum.inl (n - 1)), ⟨some (n - 1), hset st.purchases u ts⟩)) :=
  ⟨fun e he => script_already st u ts e he,
   fun hh hs => script_out_of_stock st u ts hh hs,
   fun hh n hn hp => script_success st u ts n hh hn hp⟩

/-- Witness for C2: the three branches at concrete stores. -/
theorem atomic_purchase_script_spec_witness :
    atomicPurchaseScript ⟨some 3, [("u", "t0")]⟩ "u" "t1" =
      ((0, Sum.inr "t0"), ⟨some 3, [("u", "t0")]⟩) ∧
    atomicPurchaseScript ⟨some 0, []⟩ "u" "t1" = ((2, Sum.inl 0), ⟨some 0, []⟩) ∧
    atomicPurchaseScript ⟨some 3, []⟩ "u" "t1" =
      ((1, Sum.inl 2), ⟨some 2, [("u", "t1")]⟩) := by
  refine ⟨?_, ?_, ?_⟩
  · exact (atomic_purchase_script_spec ⟨some 3, [("u", "t0")]⟩ "u" "t1").1 "t0" (by decide)
  · exact (atomic_purchase_script_spec ⟨some 0, []⟩ "u" "t1").2.1 (by decide)
      (Or.inr ⟨0, rfl, by decide⟩)
  · have h := (atomic_purchase_script_spec ⟨some 3, []⟩ "u" "t1").2.2 (by decide) 3 rfl
      (by decide)
    simpa [hset] using h

/-- C5: the derived sale state as a function of the clock, with inclusive
bounds: before `startTime` upcoming, from `startTime` through `endTime`
inclusive active, after `endTime` ended. -/
theorem getSaleStatus_window (cfg : SaleConfig)
    (hse : cfg.startTime ≤ cfg.endTime) (now : Int) :
    (now < cfg.startTime → getSaleStatus cfg now = .upcoming) ∧
    (cfg.startTime ≤ now → now ≤ cfg.endTime → getSaleStatus cfg now = .active) ∧
    (cfg.endTime < now → getSaleStatus cfg now = .ended) := by
  refine ⟨fun h => ?_, fun h1 h2 => ?_, fun h => ?_⟩
  · simp only [getSaleStatus, if_pos h]
  · simp only [getSaleStatus]
    rw [if_neg (not_lt.mpr h1), if_pos ⟨h1, h2⟩]
  · simp only [getSaleStatus]
    rw [if_neg (not_lt.mpr (le_trans hse (le_of_lt h))),
        if_neg (fun hc => absurd hc.2 (not_le.mpr h))]

/-- Witness for C5: both boundary instants are active, one step outside
the window is upcoming resp. ended. -/
theorem getSaleStatus_window_witness :
    getSaleStatus ⟨0, 100⟩ 0 = .active ∧
    getSaleStatus ⟨0, 100⟩ 100 = .active ∧
    getSaleStatus ⟨0, 100⟩ (-1) = .upcoming ∧
    getSaleStatus ⟨0, 100⟩ 101 = .ended :=
  ⟨(getSaleStatus_window ⟨0, 100⟩ (by decide) 0).2.1 (by decide) (by decide),
   (getSaleStatus_window ⟨0, 100⟩ (by decide) 100).2.1 (by decide) (by decide),
   (getSaleStatus_window ⟨0, 100⟩ (by decide) (-1)).1 (by decide),
   (getSaleStatus_window ⟨0, 100⟩ (by decide) 101).2.2 (by decide)⟩

/-- C7: the INIT script is idempotent: a second run changes nothing (and
reports 0); an existing counter is left untouched whatever its value; an
absent counter is set to the configured total stock. -/
theorem initStock_idempotent (st : Store) (totalStock : Int) :
    initStockScript (initStockScript st totalStock).2 totalStock =
      (0, (initStockScript st totalStock).2) ∧
    (∀ v, st.stock = some v → (initStockScript st totalStock).2 = st) ∧
    (st.stock = none →
      (initStockScript st totalStock).2 = { st with stock := some totalStock }) := by
  refine ⟨?_, fun v hv => ?_, fun h => ?_⟩
  · cases hs : st.stock with
    | none => simp [initStockScript, hs]
    | some v => simp [initStockScript, hs]
  · simp [initStockScript, hv]
  · simp [initStockScript, h]

/-- Witness for C7 at a present and an absent counter. -/
theorem initStock_idempotent_witness :
    initStockScript (initStockScript ⟨none, []⟩ 7).2 7 =
      (0, (initStockScript ⟨none, []⟩ 7).2) ∧
    (initStockScript ⟨some 3, []⟩ 7).2 = ⟨some 3, []⟩ ∧
    (initStockScript ⟨none, []⟩ 7).2 = ⟨some 7, []⟩ :=
  ⟨(initStock_idempotent ⟨none, []⟩ 7).1,
   (initStock_idempotent ⟨some 3, []⟩ 7).2.1 3 rfl,
   (initStock_idempotent ⟨none, []⟩ 7).2.2 rfl⟩

/-- C8: the standalone DEC script: a present positive counter is
decremented with `(1, new value)` (success true in the service wrapper);
a present non-positive counter yields `(0, 0)` unchanged; an absent
counter yields `(0, -1)`. -/
theorem decrementStock_spec (st : Store) :
    (st.stock = none →
      decrementStockScript st = ((0, -1), st) ∧
      decrementStock st = (⟨false, -1⟩, st)) ∧
    (∀ n : Int, st.stock = some n → 0 < n →
      decrementStockScript st = ((1, n - 1), { st with stock := some (n - 1) }) ∧
      decrementStock st = (⟨true, n - 1⟩, { st with stock := some (n - 1) })) ∧
    (∀ n : Int, st.stock = some n → n ≤ 0 →
      decrementStockScript st = ((0, 0), st) ∧
      decrementStock st = (⟨false, 0⟩, st)) := by
  refine ⟨fun h => ?_, fun n hn hp => ?_, fun n hn hp => ?_⟩
  · simp [decrementStockScript, decrementStock, h]
  · simp [decrementStockScript, decrementStock, hn, hp]
  · simp [decrementStockScript, decrementStock, hn, not_lt.mpr hp]

/-- Witness for C8: the three counter states. -/
theorem decrementStock_spec_witness :
    decrementStockScript ⟨none, []⟩ = ((0, -1), ⟨none, []⟩) ∧
    decrementStockScript ⟨some 5, []⟩ = ((1, 4), ⟨some 4, []⟩) ∧
    decrementStockScript ⟨some 0, []⟩ = ((0, 0), ⟨some 0, []⟩) := by
  refine ⟨?_, ?_, ?_⟩
  · exact ((decrementStock_spec ⟨none, []⟩).1 rfl).1
  · have h := ((decrementStock_spec ⟨some 5, []⟩).2.1 5 rfl (by decide)).1
    simpa using h
  · exact ((decrementStock_spec ⟨some 0, []⟩).2.2 0 rfl (by decide)).1

/-- C1: from the initialized state, every state reachable by executions
of the atomic purchase script satisfies `counter + |ledger| = totalStock`
with a non-negative counter, and each further execution either leaves the
store unchanged or decrements the counter by exactly one while inserting
exactly one new key. -/
theorem purchase_script_invariant (totalStock : Nat) (st : Store)
    (h : ReachableP totalStock st) :
    (∃ n : Int, st.stock = some n ∧ 0 ≤ n ∧
        n + (st.purchases.length : Int) = (totalStock : Int)) ∧
    (∀ u ts : String,
      (atomicPurchaseScript st u ts).2 = st ∨
        ∃ n : Int, st.stock = some n ∧ 0 < n ∧ hget st.purchases u = none ∧
          (atomicPurchaseScript st u ts).2 =
            ⟨some (n - 1), st.purchases ++ [(u, ts)]⟩) := by
  refine ⟨?_, fun u ts => script_step_cases st u ts⟩
  induction h with
  | init => exact ⟨(totalStock : Int), rfl, Int.ofNat_nonneg totalStock, by simp⟩
  | step st' u ts hr ih =>
    rcases script_step_cases st' u ts with heq | ⟨n, hn, hpos, hh, heq⟩
    · rw [heq]; exact ih
    · rcases ih with ⟨m, hm, hm0, hsum⟩
      have hmn : m = n := Option.some.inj (hm ▸ hn)
      subst hmn
      rw [heq]
      refine ⟨m - 1, rfl, by omega, ?_⟩
      simp only [List.length_append, List.length_cons, List.length_nil]
      push_cast
      omega

/-- Witness for C1 at the initialized state with total stock 2. -/
theorem purchase_script_invariant_witness :
    (∃ n : Int, (Store.mk (some 2) []).stock = some n ∧ 0 ≤ n ∧
        n + ((Store.mk (some 2) []).purchases.length : Int) = ((2 : Nat) : Int)) ∧
    (∀ u ts : String,
      (atomicPurchaseScript ⟨some 2, []⟩ u ts).2 = ⟨some 2, []⟩ ∨
        ∃ n : Int, (Store.mk (some 2) []).stock = some n ∧ 0 < n ∧
          hget (Store.mk (some 2) []).purchases u = none ∧
          (atomicPurchaseScript ⟨some 2, []⟩ u ts).2 =
            ⟨some (n - 1), (Store.mk (some 2) []).purchases ++ [(u, ts)]⟩) :=
  purchase_script_invariant 2 ⟨some 2, []⟩ ReachableP.init

/-- C4: an id that trims to the empty string is rejected as
invalid_user_id, a non-empty id outside the window as sale_not_active,
and in both cases the store is returned untouched (the atomic script is
never reached). -/
theorem attempt_validation_and_gate :
    (∀ (cfg : SaleConfig) (g : Int) (n raw : String) (st : Store),
      jsTrim raw = "" →
        attemptPurchase cfg g n raw st =
          (some (.failure .invalid_user_id invalidUserIdMsg), st)) ∧
    (∀ (cfg : SaleConfig) (g : Int) (n raw : String) (st : Store),
      jsTrim raw ≠ "" → (g < cfg.startTime ∨ cfg.endTime < g) →
        ∃ m, attemptPurchase cfg g n raw st =
          (some (.failure .sale_not_active m), st)) := by
  constructor
  · exact fun cfg g n raw st h => attempt_invalid cfg g n raw st h
  · intro cfg g n raw st h hg
    have ha : getSaleStatus cfg g ≠ .active := by
      simp only [getSaleStatus]
      rcases hg with hg | hg
      · rw [if_pos hg]; simp
      · by_cases h1 : g < cfg.startTime
        · rw [if_pos h1]; simp
        · rw [if_neg h1, if_neg (fun hc => absurd hc.2 (not_le.mpr hg))]
          simp
    exact ⟨_, attempt_not_active cfg g n raw st h ha⟩

/-- Witness for C4: a whitespace-only id, and a valid id after the
window has closed. -/
theorem attempt_validation_and_gate_witness :
    attemptPurchase ⟨0, 100⟩ 50 "t" "   " ⟨some 5, []⟩ =
      (some (.failure .invalid_user_id invalidUserIdMsg), ⟨some 5, []⟩) ∧
    ∃ m, attemptPurchase ⟨0, 100⟩ 200 "t" "u" ⟨some 5, []⟩ =
      (some (.failure .sale_not_active m), ⟨some 5, []⟩) :=
  ⟨attempt_validation_and_gate.1 ⟨0, 100⟩ 50 "t" "   " ⟨some 5, []⟩ (by decide),
   attempt_validation_and_gate.2 ⟨0, 100⟩ 200 "t" "u" ⟨some 5, []⟩ (by decide)
     (Or.inr (by decide))⟩

/-- C6: attemptPurchase is invariant under user-id normalization: two raw
ids with the same trimmed, lower-cased form get the same response and the
same state change from any store. -/
theorem attempt_normalization (a b : String)
    (hnorm : normalizeUserId a = normalizeUserId b)
    (cfg : SaleConfig) (g : Int) (n : String) (st : Store) :
    attemptPurchase cfg g n a st = attemptPurchase cfg g n b st := by
  have hta : jsTrim a = "" ↔ jsTrim b = "" := by
    rw [← normalizeUserId_eq_empty, ← normalizeUserId_eq_empty, hnorm]
  by_cases ht : jsTrim a = ""
  · rw [attempt_invalid _ _ _ _ _ ht, attempt_invalid _ _ _ _ _ (hta.mp ht)]
  · have htb : jsTrim b ≠ "" := fun hb => ht (hta.mpr hb)
    by_cases ha : getSaleStatus cfg g = .active
    · cases hh : hget st.purchases (normalizeUserId a) with
      | some e =>
        rw [attempt_already _ _ _ _ _ e ht ha hh,
            attempt_already _ _ _ _ _ e htb ha (by rw [← hnorm]; exact hh)]
      | none =>
        cases hs : st.stock with
        | none =>
          rw [attempt_out_of_stock _ _ _ _ _ ht ha hh (Or.inl hs),
              attempt_out_of_stock _ _ _ _ _ htb ha (by rw [← hnorm]; exact hh)
                (Or.inl hs)]
        | some k =>
          by_cases hk : k ≤ 0
          · rw [attempt_out_of_stock _ _ _ _ _ ht ha hh (Or.inr ⟨k, hs, hk⟩),
                attempt_out_of_stock _ _ _ _ _ htb ha (by rw [← hnorm]; exact hh)
                  (Or.inr ⟨k, hs, hk⟩)]
          · rw [attempt_success_eq _ _ _ _ _ k ht ha hh hs (lt_of_not_le hk),
                attempt_success_eq _ _ _ _ _ k htb ha (by rw [← hnorm]; exact hh)
                  hs (lt_of_not_le hk), hnorm]
    · rw [attempt_not_active _ _ _ _ _ ht ha, attempt_not_active _ _ _ _ _ htb ha]

/-- Witness for C6 at the specific pair named by the spec. -/
theorem attempt_normalization_witness :
    normalizeUserId "  Alice@X.com  " = normalizeUserId "alice@x.com" ∧
    attemptPurchase ⟨0, 100⟩ 50 "t" "  Alice@X.com  " ⟨some 5, []⟩ =
      attemptPurchase ⟨0, 100⟩ 50 "t" "alice@x.com" ⟨some 5, []⟩ :=
  ⟨by decide,
   attempt_normalization "  Alice@X.com  " "alice@x.com" (by decide)
     ⟨0, 100⟩ 50 "t" ⟨some 5, []⟩⟩

/-- C3 counterexample: a concrete pair of calls for the same user.  The
first succeeds with purchasedAt "t1"; the second returns
already_purchased, but the failure response carries no purchasedAt field
at all, so it cannot equal the first success's purchasedAt. -/
theorem attempt_duplicate_no_purchasedAt :
    attemptPurchase ⟨0, 100⟩ 1 "t1" "u" ⟨some 5, []⟩ =
      (some (.success purchaseSuccessMsg "t1"), ⟨some 4, [("u", "t1")]⟩) ∧
    attemptPurchase ⟨0, 100⟩ 2 "t2" "u" ⟨some 4, [("u", "t1")]⟩ =
      (some (.failure .already_purchased alreadyPurchasedMsg),
        ⟨some 4, [("u", "t1")]⟩) ∧
    responsePurchasedAt (.failure .already_purchased alreadyPurchasedMsg) = none ∧
    responsePurchasedAt (.failure .already_purchased alreadyPurchasedMsg) ≠
      some "t1" :=
  ⟨by decide, by decide, rfl, by decide⟩

/-- C3 amended: at most one call in any sequence succeeds per normalized
user id; once the ledger holds the user, a call for that user made while
the sale is active returns already_purchased and leaves the store
unchanged; and a ledger entry, once present, survives every later call
(the first success's timestamp stays in the ledger; the failure response
itself carries no purchasedAt). -/
theorem attempt_uniqueness (cfg : SaleConfig) (st : Store)
    (calls : List Call) (u : String) :
    successCount u (runCalls cfg st calls).1 ≤ 1 ∧
    (∀ (g : Int) (n raw e : String), jsTrim raw ≠ "" →
      getSaleStatus cfg g = .active →
      hget st.purchases (normalizeUserId raw) = some e →
        attemptPurchase cfg g n raw st =
          (some (.failure .already_purchased alreadyPurchasedMsg), st)) ∧
    (∀ (g : Int) (n raw e : String), hget st.purchases u = some e →
      hget (attemptPurchase cfg g n raw st).2.purchases u = some e) :=
  ⟨successCount_le_one cfg st calls u,
   fun g n raw e ht ha hh => attempt_already cfg g n raw st e ht ha hh,
   fun g n raw e he => attempt_preserves_entry cfg g n raw st u e he⟩

/-- Witness for C3 amended: a run of three calls for the same user
succeeds once, and the persisted entry survives a repeat call. -/
theorem attempt_uniqueness_witness :
    successCount "u"
      (runCalls ⟨0, 100⟩ ⟨some 5, []⟩
        [⟨1, "t1", "u"⟩, ⟨2, "t2", "u"⟩, ⟨3, "t3", "U"⟩]).1 ≤ 1 ∧
    attemptPurchase ⟨0, 100⟩ 2 "t2" "u" ⟨some 4, [("u", "t1")]⟩ =
      (some (.failure .already_purchased alreadyPurchasedMsg),
        ⟨some 4, [("u", "t1")]⟩) ∧
    hget (attemptPurchase ⟨0, 100⟩ 2 "t2" "u" ⟨some 4, [("u", "t1")]⟩).2.purchases
      "u" = some "t1" :=
  ⟨(attempt_uniqueness ⟨0, 100⟩ ⟨some 5, []⟩
      [⟨1, "t1", "u"⟩, ⟨2, "t2", "u"⟩, ⟨3, "t3", "U"⟩] "u").1,
   (attempt_uniqueness ⟨0, 100⟩ ⟨some 4, [("u", "t1")]⟩ [] "u").2.1 2 "t2" "u" "t1"
     (by decide) (by decide) (by decide),
   (attempt_uniqueness ⟨0, 100⟩ ⟨some 4, [("u", "t1")]⟩ [] "u").2.2 2 "t2" "u" "t1"
     (by decide)⟩

/-- C9: on a successful attemptPurchase, the purchasedAt of the response
is exactly the ISO string captured before the script call, and the ledger
stores that same string under the normalized user id. -/
theorem success_purchasedAt_matches_ledger (cfg : SaleConfig) (g : Int)
    (n raw : String) (st : Store) (m ts : String)
    (h : (attemptPurchase cfg g n raw st).1 = some (.success m ts)) :
    ts = n ∧
    hget (attemptPurchase cfg g n raw st).2.purchases (normalizeUserId raw) =
      some n := by
  obtain ⟨-, -, -, -, hts, k, -, -, heq⟩ :=
    attempt_success_inv cfg g n raw st m ts h
  refine ⟨hts, ?_⟩
  rw [heq]
  exact hget_hset_self _ _ _

/-- Witness for C9 at a concrete successful call. -/
theorem success_purchasedAt_matches_ledger_witness :
    "t1" = "t1" ∧
    hget (attemptPurchase ⟨0, 100⟩ 50 "t1" "u" ⟨some 5, []⟩).2.purchases
      (normalizeUserId "u") = some "t1" :=
  success_purchasedAt_matches_ledger ⟨0, 100⟩ 50 "t1" "u" ⟨some 5, []⟩
    purchaseSuccessMsg "t1" (by decide)

/-- C10: getUserPurchaseStatus on the empty string answers
hasPurchased false for every ledger (the ledger is not consulted), and
any id normalizing to the empty string gets the same answer whenever the
ledger holds no empty key. -/
theorem getUserPurchaseStatus_empty (ledger : List (String × String)) :
    getUserPurchaseStatus "" ledger = ⟨false, none⟩ ∧
    (∀ u, normalizeUserId u = "" → hget ledger "" = none →
      getUserPurchaseStatus u ledger = ⟨false, none⟩) := by
  constructor
  · rfl
  · intro u hu hl
    by_cases he : u = ""
    · rw [he]; rfl
    · simp only [getUserPurchaseStatus, if_neg he]
      have hu' : jsToLowerCase (jsTrim u) = "" := hu
      rw [hu']
      simp [hasPurchased, hl]

/-- Witness for C10 with a whitespace-only id and a non-empty ledger. -/
theorem getUserPurchaseStatus_empty_witness :
    getUserPurchaseStatus "" [("alice", "t")] = ⟨false, none⟩ ∧
    getUserPurchaseStatus "   " [("alice", "t")] = ⟨false, none⟩ :=
  ⟨(getUserPurchaseStatus_empty [("alice", "t")]).1,
   (getUserPurchaseStatus_empty [("alice", "t")]).2 "   " (by decide) (by decide)⟩

end FlashSale
